import Mathlib

/-!
Shallow embedding of the TestBuddy coding-evaluation workflow of the
LearnMate application (React/TypeScript), together with proofs about the
run/submit orchestrator, the judge-client adapter, the diagnostic
extractor, and the attempt recorder.

Embedded source locations:
* `src/components/TestBuddy.tsx` — `parseError`, `extractInputValue`,
  `handleRunCode`, `handleSubmitCode`;
* `src/services/firebaseConfig.ts` (the `geminiService` section, line 1086) —
  `evaluateCodeWithAI` with its catch-all synthetic-result fallback;
* `src/unnamed/part_002` (`firebaseService`) — `saveCodingResult`.

Strings are modelled as Lean `String`/`List Char` (the app only ever feeds
ASCII error messages and test inputs through these functions); JavaScript
numbers appearing as scores are modelled by `JSNum` below, with `JSNum.nan`
for the IEEE NaN produced by `0/0` and exact rational arithmetic (with
explicit half-up rounding for `toFixed(2)`) elsewhere.
-/

namespace LearnMate

/-! ## Data model (src/types.ts) -/

/-- `CodingProblemDifficulty = 'Easy' | 'Medium' | 'Hard'` (src/types.ts). -/
inductive CodingProblemDifficulty
  | Easy
  | Medium
  | Hard
  deriving DecidableEq

/-- `Language = 'javascript' | 'python' | 'java' | 'c'` (src/types.ts). -/
inductive Language
  | javascript
  | python
  | java
  | c
  deriving DecidableEq

/-- `SubmissionStatus` string union from src/types.ts. -/
inductive SubmissionStatus
  | Accepted
  | WrongAnswer
  | RuntimeError
  | TimeLimitExceeded
  | CompilationError
  | Pending
  | Running
  deriving DecidableEq

/-- `Example` from src/types.ts (visible example of a coding problem). -/
structure Example where
  input : String
  output : String
  explanation : Option String := none
  deriving DecidableEq

/-- `TestCase` from src/types.ts (hidden test case of a coding problem). -/
structure TestCase where
  input : String
  output : String
  deriving DecidableEq

/-- `CodingProblem` from src/types.ts.  The per-language `Record` maps are
modelled as functions from `Language`. -/
structure CodingProblem where
  id : String
  title : String
  difficulty : CodingProblemDifficulty
  description : String
  constraints : List String
  examples : List Example
  testCases : List TestCase
  starterCode : Language → String
  solution : Language → String

/-- `SubmissionResult` from src/types.ts.  Optional string fields are
modelled as `String` with `""` for `undefined`: every consumer in the source
reads them through JavaScript `||` chains, which treat `undefined` and `""`
identically.  `expectedOutput` is kept as `Option String` because the judge
adapter explicitly writes a possibly-absent value into it. -/
structure SubmissionResult where
  status : SubmissionStatus
  stdout : String := ""
  expectedOutput : Option String := none
  stderr : String := ""
  compile_output : String := ""
  time : String := ""
  memory : Nat := 0
  deriving DecidableEq

/-! ## JavaScript string helpers -/

/-- The whitespace characters relevant to `String.prototype.trim` on the
ASCII strings this app produces. -/
def jsWhitespace (c : Char) : Bool :=
  c = ' ' || c = '\t' || c = '\n' || c = '\r' || c = '\x0b' || c = '\x0c'

/-- `trim()` on a character list: drop leading and trailing whitespace. -/
def trimChars (cs : List Char) : List Char :=
  ((cs.dropWhile jsWhitespace).reverse.dropWhile jsWhitespace).reverse

/-- JavaScript `s.trim()`. -/
def jsTrim (s : String) : String :=
  String.mk (trimChars s.data)

/-- JavaScript `a || b` on strings: `a` unless `a` is falsy (empty). -/
def jsOrStr (a b : String) : String :=
  if a = "" then b else a

/-! ## Diagnostic Extractor (`parseError`, src/components/TestBuddy.tsx:14)

The source matches the regex
`/(?:[a-zA-Z0-9\/\._-]+):(\d+)|line (\d+)|\[Line (\d+)\]/i`
against the error text and reads the first defined capture group.  The
regex engine scans start positions left to right and, at each position,
tries the three alternatives in pattern order, so the embedding below scans
suffixes and tries the three alternative matchers in order. -/

/-- `Diagnostic` — the `{ lineNumber, message }` value produced by
`parseError`. -/
structure Diagnostic where
  lineNumber : Nat
  message : String
  deriving DecidableEq

/-- Characters matched by the class `[a-zA-Z0-9\/\._-]`. -/
def isPathChar (c : Char) : Bool :=
  c.isAlpha || c.isDigit || c = '/' || c = '.' || c = '_' || c = '-'

/-- `parseInt` on a non-empty ASCII digit string. -/
def digitsToNat (ds : List Char) : Nat :=
  ds.foldl (fun n c => n * 10 + (c.toNat - '0'.toNat)) 0

/-- Greedily take a non-empty run of digits from the front, returning the
parsed value and the remainder (the `(\d+)` capture groups). -/
def takeDigits (cs : List Char) : Option (Nat × List Char) :=
  let ds := cs.takeWhile Char.isDigit
  if ds.isEmpty then none else some (digitsToNat ds, cs.drop ds.length)

/-- Match a literal pattern case-insensitively (the regex carries the `i`
flag) at the front of `cs`, returning the remainder on success. -/
def matchesCI : List Char → List Char → Option (List Char)
  | [], rest => some rest
  | _ :: _, [] => none
  | p :: ps, c :: rest => if c.toLower = p.toLower then matchesCI ps rest else none

/-- Match a literal pattern case-sensitively at the front of `cs`,
returning the remainder on success. -/
def matchesCS : List Char → List Char → Option (List Char)
  | [], rest => some rest
  | _ :: _, [] => none
  | p :: ps, c :: rest => if c = p then matchesCS ps rest else none

/-- Alternative (a) of the regex, `(?:[a-zA-Z0-9\/\._-]+):(\d+)`, anchored
at the front of `cs`.  The character class excludes `:`, so the greedy run
must be the maximal one and no backtracking case is lost. -/
def tryAltA (cs : List Char) : Option Nat :=
  let run := cs.takeWhile isPathChar
  if run.isEmpty then none
  else
    match cs.drop run.length with
    | ':' :: rest => (takeDigits rest).map (fun q => q.1)
    | _ => none

/-- Alternative (b) of the regex, `line (\d+)` under the `i` flag, anchored
at the front of `cs`. -/
def tryAltB (cs : List Char) : Option Nat :=
  match matchesCI "line ".data cs with
  | none => none
  | some rest => (takeDigits rest).map (fun q => q.1)

/-- Alternative (c) of the regex, `\[Line (\d+)\]` under the `i` flag,
anchored at the front of `cs`. -/
def tryAltC (cs : List Char) : Option Nat :=
  match matchesCI "[Line ".data cs with
  | none => none
  | some rest =>
    match takeDigits rest with
    | none => none
    | some (n, rest2) =>
      match rest2 with
      | ']' :: _ => some n
      | _ => none

/-- Leftmost-match scan of a three-alternative regex: at each start
position try the alternatives in pattern order, first success wins. -/
def scan3 (a b c : List Char → Option Nat) : List Char → Option Nat
  | [] => none
  | ch :: rest =>
    match a (ch :: rest) with
    | some v => some v
    | none =>
      match b (ch :: rest) with
      | some v => some v
      | none =>
        match c (ch :: rest) with
        | some v => some v
        | none => scan3 a b c rest

/-- `errorMessage.match(regex)` followed by reading the matched digit
group: the first position (scanning left to right) where some alternative
matches, alternatives tried in pattern order. -/
def findLineMatch : List Char → Option Nat :=
  scan3 tryAltA tryAltB tryAltC

/-- `parseError` (src/components/TestBuddy.tsx:14): `null` on a falsy
(empty) message; otherwise the matched line number, defaulting to 1, with
the trimmed original text as message. -/
def parseError (errorMessage : String) : Option Diagnostic :=
  if errorMessage = "" then none
  else
    match findLineMatch errorMessage.data with
    | some n => some { lineNumber := n, message := jsTrim errorMessage }
    | none => some { lineNumber := 1, message := jsTrim errorMessage }

/-! ## Input stripping (`extractInputValue`, src/components/TestBuddy.tsx:37) -/

/-- `input.split('\n')` on character lists. -/
def splitNl : List Char → List (List Char)
  | [] => [[]]
  | c :: rest =>
    if c = '\n' then [] :: splitNl rest
    else
      match splitNl rest with
      | [] => [[c]]
      | l :: ls => (c :: l) :: ls

/-- `lines.join('\n')` on character lists. -/
def joinNl : List (List Char) → List Char
  | [] => []
  | [l] => l
  | l :: l2 :: ls => l ++ '\n' :: joinNl (l2 :: ls)

/-- The per-line body of `extractInputValue`: `line.indexOf('=')` is the
length of the longest `'='`-free prefix; if it is a real index (i.e. not
the whole line), keep the trimmed text after the first `'='`, else the
trimmed line. -/
def stripLine (line : List Char) : List Char :=
  let pre := line.takeWhile (fun c => c != '=')
  if pre.length = line.length then trimChars line
  else trimChars (line.drop (pre.length + 1))

/-- `extractInputValue` on a character list: split on newlines, strip each
line, re-join. -/
def extractList (cs : List Char) : List Char :=
  joinNl ((splitNl cs).map stripLine)

/-- `extractInputValue` (src/components/TestBuddy.tsx:37). -/
def extractInputValue (input : String) : String :=
  String.mk (extractList input.data)

/-! ## Judge Client adapter
(`evaluateCodeWithAI`, src/services/firebaseConfig.ts:1086)

The oracle boundary — the `generateContent` call plus `JSON.parse` of its
text — is modelled by `OracleResponse`: either the call threw / produced
unparseable text (`failure`), or it produced the parsed `results` array.
Everything after that boundary is embedded from the source. -/

/-- One entry of the `testCases` argument of `evaluateCodeWithAI`:
`{ stdin: string, expectedOutput?: string }`. -/
structure JudgeCase where
  stdin : String
  expectedOutput : Option String := none
  deriving DecidableEq

/-- One entry of the parsed oracle `results` array; all six fields are
`required` in the response schema. -/
structure RawResult where
  status : SubmissionStatus
  stdout : String
  stderr : String
  compile_output : String
  time : String
  memory : Nat
  deriving DecidableEq

/-- The outcome of the oracle call as seen after `JSON.parse`: the call
threw or its text failed to parse (`failure`), or it yielded a `results`
array. -/
inductive OracleResponse
  | failure
  | results (rs : List RawResult)

/-- The synthetic per-case result built in the `catch` branch of
`evaluateCodeWithAI`. -/
def syntheticResult : SubmissionResult :=
  { status := SubmissionStatus.CompilationError
    stdout := ""
    expectedOutput := none
    stderr := ""
    compile_output := "Evaluation failed due to AI error."
    time := "0"
    memory := 0 }

/-- The body of `parsed.results.map((res, index) => ({ ...res,
expectedOutput: testCases[index].expectedOutput }))` for one positional
pair: spread the raw result and override `expectedOutput` from the
same-index request case. -/
def adaptResult (q : RawResult × JudgeCase) : SubmissionResult :=
  { status := q.1.status
    stdout := q.1.stdout
    expectedOutput := q.2.expectedOutput
    stderr := q.1.stderr
    compile_output := q.1.compile_output
    time := q.1.time
    memory := q.1.memory }

/-- `evaluateCodeWithAI` (src/services/firebaseConfig.ts:1086).  On
`failure` the `catch` branch returns one synthetic `CompilationError`
result per requested case.  On a parsed `results` array the positional
`map` succeeds exactly when the array is no longer than `testCases`
(`rs.zip testCases` keeps all of `rs` then); if the array is longer, the
access `testCases[index].expectedOutput` throws at the first excess index
and the `catch` branch again produces the synthetic list. -/
def evaluateCodeWithAI (language : Language) (sourceCode : String)
    (testCases : List JudgeCase) (problem : CodingProblem)
    (response : OracleResponse) : List SubmissionResult :=
  match response with
  | OracleResponse.failure => testCases.map (fun _ => syntheticResult)
  | OracleResponse.results rs =>
    if rs.length ≤ testCases.length then (rs.zip testCases).map adaptResult
    else testCases.map (fun _ => syntheticResult)

/-! ## Run/Submit Orchestrator (src/components/TestBuddy.tsx) -/

/-- The `'Passed' | 'Failed'` union used by `TestResult.status` and
`TestCaseResult.status` (src/types.ts). -/
inductive AttemptStatus
  | Passed
  | Failed
  deriving DecidableEq

/-- A JavaScript number as it appears in the recorded score: either NaN
(produced by `0/0` on an empty list) or an exact rational value. -/
inductive JSNum
  | nan
  | val (q : ℚ)
  deriving DecidableEq

/-- `parseFloat(x.toFixed(2))` for non-negative `x`: round to two decimal
places, halves up (exact rational idealization of the IEEE computation). -/
def roundTo2 (q : ℚ) : ℚ :=
  ((⌊q * 100 + 1 / 2⌋ : ℤ) : ℚ) / 100

/-- `const score = (passedCount / submissionDisplayResults.length) * 100`
followed by `parseFloat(score.toFixed(2))`: NaN when the list is empty
(division `0/0`). -/
def computeScore (passedCount total : Nat) : JSNum :=
  if total = 0 then JSNum.nan
  else JSNum.val (roundTo2 ((passedCount : ℚ) / (total : ℚ) * 100))

/-- `TestResult` (src/types.ts) without the server-assigned `attemptedAt`
timestamp — the `resultData` record passed to `onCodingAttempt`. -/
structure TestResultRec where
  testId : String
  title : String
  difficulty : CodingProblemDifficulty
  language : Language
  codeSubmitted : String
  status : AttemptStatus
  score : JSNum
  deriving DecidableEq

/-- One entry of `submissionDisplayResults`: the spread evaluation result
plus `passed`, `input` and `expected` (TestBuddy.tsx:392). -/
structure SubmissionDisplayResult where
  result : SubmissionResult
  passed : Bool
  input : String
  expected : String
  deriving DecidableEq

/-- `results.findIndex(r => r.status !== 'Accepted')` paired with the
subsequent `results[firstFailureIndex]` access: the index and value of the
first non-Accepted result, if any. -/
def findFirstFailure : List SubmissionResult → Option (Nat × SubmissionResult)
  | [] => none
  | r :: rest =>
    if r.status ≠ SubmissionStatus.Accepted then some (0, r)
    else (findFirstFailure rest).map (fun q => (q.1 + 1, q.2))

/-- The aggregate verdict of `handleSubmitCode`: `Accepted` when every
case is accepted (`firstFailureIndex === -1`), else the status of the
first failing case. -/
def overallStatusOf (results : List SubmissionResult) : SubmissionStatus :=
  match findFirstFailure results with
  | none => SubmissionStatus.Accepted
  | some q => q.2.status

/-- The observable outcome of one completed `handleSubmitCode` call: the
display results, the final `overallSubmissionStatus`, the `resultData`
records passed to `onCodingAttempt` (in order), the final `codeError`, and
the index of the case for which `generateFailureExplanation` was
requested, if any. -/
structure SubmitOutcome where
  submissionResults : List SubmissionDisplayResult
  overallStatus : SubmissionStatus
  recordedAttempts : List TestResultRec
  codeError : Option Diagnostic
  explanationRequestedFor : Option Nat
  deriving DecidableEq

/-- The `testCasesToSubmit` list built by `handleSubmitCode`
(TestBuddy.tsx:385): hidden cases with variable-name prefixes stripped. -/
def submissionCasesOf (p : CodingProblem) : List JudgeCase :=
  p.testCases.map (fun tc => { stdin := extractInputValue tc.input, expectedOutput := some tc.output })

/-- The evaluation results a Submit over problem `p` observes for a given
oracle response. -/
def submissionResultsOf (p : CodingProblem) (lang : Language) (code : String)
    (resp : OracleResponse) : List SubmissionResult :=
  evaluateCodeWithAI lang code (submissionCasesOf p) p resp

/-- The body of `results.map((result, index) => ({ ...result, passed:
result.status === 'Accepted', input: ..., expected: ... }))` for one
positional result/hidden-case pair. -/
def mkDisplay (q : SubmissionResult × TestCase) : SubmissionDisplayResult :=
  { result := q.1
    passed := q.1.status == SubmissionStatus.Accepted
    input := q.2.input
    expected := q.2.output }

/-- The post-guard body of `handleSubmitCode` (TestBuddy.tsx:376-444).
`results.zip p.testCases` models the positional access
`activeCodingProblem.testCases[index]`, which stays in range because the
adapter never returns more results than requested cases. -/
def submitCore (p : CodingProblem) (lang : Language) (code : String)
    (resp : OracleResponse) : SubmitOutcome :=
  let results := submissionResultsOf p lang code resp
  let display := (results.zip p.testCases).map mkDisplay
  let passedCount := (display.filter (fun d => d.passed)).length
  let score := computeScore passedCount display.length
  let resultData : TestResultRec :=
    { testId := p.id
      title := p.title
      difficulty := p.difficulty
      language := lang
      codeSubmitted := code
      status := if (findFirstFailure results).isNone then AttemptStatus.Passed else AttemptStatus.Failed
      score := score }
  match findFirstFailure results with
  | none =>
    { submissionResults := display
      overallStatus := SubmissionStatus.Accepted
      recordedAttempts := [resultData]
      codeError := none
      explanationRequestedFor := none }
  | some q =>
    { submissionResults := display
      overallStatus := q.2.status
      recordedAttempts := [resultData]
      codeError := parseError (jsOrStr q.2.compile_output (jsOrStr q.2.stderr ""))
      explanationRequestedFor := if q.2.status = SubmissionStatus.WrongAnswer then some q.1 else none }

/-- `handleSubmitCode` (TestBuddy.tsx:373): the guard
`if (!user || !activeCodingProblem || isExecuting) return;` makes the call
a no-op (`none`) with no oracle call and no recorded attempt. -/
def handleSubmitCode (hasUser : Bool) (activeCodingProblem : Option CodingProblem)
    (isExecuting : Bool) (lang : Language) (code : String)
    (resp : OracleResponse) : Option SubmitOutcome :=
  if hasUser = false ∨ activeCodingProblem.isNone = true ∨ isExecuting = true then none
  else activeCodingProblem.map (fun p => submitCore p lang code resp)

/-- `TestCaseResult` (src/types.ts), as built by `handleRunCode`. -/
structure TestCaseResult where
  input : String
  expectedOutput : String
  userOutput : String
  status : AttemptStatus
  error : String := ""
  deriving DecidableEq

/-- The observable outcome of one completed `handleRunCode` call.  Run
never records an attempt. -/
structure RunOutcome where
  runResults : List TestCaseResult
  codeError : Option Diagnostic
  deriving DecidableEq

/-- The `testCasesToRun` list built by `handleRunCode`
(TestBuddy.tsx:348). -/
def runCasesOf (p : CodingProblem) : List JudgeCase :=
  p.examples.map (fun ex => { stdin := extractInputValue ex.input, expectedOutput := some ex.output })

/-- The post-guard body of `handleRunCode` (TestBuddy.tsx:341-370). -/
def runCore (p : CodingProblem) (lang : Language) (code : String)
    (resp : OracleResponse) : RunOutcome :=
  let results := evaluateCodeWithAI lang code (runCasesOf p) p resp
  let runResults := (results.zip p.examples).map (fun q =>
    { input := q.2.input
      expectedOutput := q.2.output
      userOutput := jsOrStr q.1.compile_output (jsOrStr q.1.stderr (jsOrStr q.1.stdout "No output"))
      status := if q.1.status = SubmissionStatus.Accepted then AttemptStatus.Passed else AttemptStatus.Failed
      error := jsOrStr q.1.stderr q.1.compile_output })
  let firstError := results.find? (fun r =>
    r.status == SubmissionStatus.CompilationError || r.status == SubmissionStatus.RuntimeError)
  { runResults := runResults
    codeError := firstError.bind (fun fe => parseError (jsOrStr fe.compile_output (jsOrStr fe.stderr ""))) }

/-- `handleRunCode` (TestBuddy.tsx:339): the guard
`if (!activeCodingProblem || isExecuting) return;` makes the call a no-op
(`none`) with no oracle call. -/
def handleRunCode (activeCodingProblem : Option CodingProblem) (isExecuting : Bool)
    (lang : Language) (code : String) (resp : OracleResponse) : Option RunOutcome :=
  if activeCodingProblem.isNone = true ∨ isExecuting = true then none
  else activeCodingProblem.map (fun p => runCore p lang code resp)

/-- The attempt records produced by a `handleSubmitCode` call, empty when
the guard rejected the call. -/
def attemptsOf : Option SubmitOutcome → List TestResultRec
  | none => []
  | some o => o.recordedAttempts

/-! ## Attempt Recorder (`saveCodingResult`, src/unnamed/part_002:177) -/

/-- A document of the `codingResults` sub-collection: the submitted
`TestResult` plus the server timestamp. -/
structure StoredCodingResult where
  result : TestResultRec
  attemptedAt : Nat
  deriving DecidableEq

/-- `saveCodingResult` (src/unnamed/part_002:177): one `add` call appends
exactly one new document to the `codingResults` collection. -/
def saveCodingResult (store : List StoredCodingResult) (now : Nat)
    (result : TestResultRec) : List StoredCodingResult :=
  store ++ [{ result := result, attemptedAt := now }]

/-! ## Reference algorithm of the Diagnostic Extractor, from the
specification text

The spec describes the extractor as: find, for each of the three shapes,
its first match position; the earliest position wins, ties broken by the
priority order (a) `path:digits`, (b) literal `line ` + digits, (c)
`[Line digits]`; no match defaults to line 1; empty input gives no
diagnostic.  The shapes (b) and (c) are written here both as literal
(case-sensitive) matchers, as the spec's words state them, and as
case-insensitive matchers, which is how the source's `i`-flagged regex
behaves. -/

/-- Shape (b) read literally from the spec: the exact substring `line `
followed by digits. -/
def specShapeB (cs : List Char) : Option Nat :=
  match matchesCS "line ".data cs with
  | none => none
  | some rest => (takeDigits rest).map (fun q => q.1)

/-- Shape (c) read literally from the spec: the exact bracketed form
`[Line digits]`. -/
def specShapeC (cs : List Char) : Option Nat :=
  match matchesCS "[Line ".data cs with
  | none => none
  | some rest =>
    match takeDigits rest with
    | none => none
    | some (n, rest2) =>
      match rest2 with
      | ']' :: _ => some n
      | _ => none

/-- First match position (with the matched value) of one shape: the
smallest suffix index at which the shape matches. -/
def shapeFirst (shape : List Char → Option Nat) : List Char → Option (Nat × Nat)
  | [] => (shape []).map (fun v => (0, v))
  | c :: rest =>
    match shape (c :: rest) with
    | some v => some (0, v)
    | none => (shapeFirst shape rest).map (fun q => (q.1 + 1, q.2))

/-- Combine two candidate matches: the earlier position wins, a tie keeps
the first (higher-priority) candidate. -/
def bestOf : Option (Nat × Nat) → Option (Nat × Nat) → Option (Nat × Nat)
  | none, o => o
  | some q, none => some q
  | some q, some r => if r.1 < q.1 then some r else some q

/-- The spec's scan: per-shape first matches combined by earliest position
with priority (a), (b), (c) at ties. -/
def specLineScan (b c : List Char → Option Nat) (cs : List Char) : Option Nat :=
  (bestOf (bestOf (shapeFirst tryAltA cs) (shapeFirst b cs)) (shapeFirst c cs)).map (fun q => q.2)

/-- The extractor the spec describes, parameterized by the matchers used
for shapes (b) and (c). -/
def specExtractWith (b c : List Char → Option Nat) (s : String) : Option Diagnostic :=
  if s = "" then none
  else
    match specLineScan b c s.data with
    | some n => some { lineNumber := n, message := jsTrim s }
    | none => some { lineNumber := 1, message := jsTrim s }

/-- The reference algorithm exactly as the spec words it: shapes (b) and
(c) are literal, case-sensitive substrings. -/
def specDiagnosticExtract (s : String) : Option Diagnostic :=
  specExtractWith specShapeB specShapeC s

/-- The reference algorithm with shapes (b) and (c) matched
case-insensitively, as the source's `i`-flagged regex actually behaves. -/
def specDiagnosticExtractCI (s : String) : Option Diagnostic :=
  specExtractWith tryAltB tryAltC s

/-- The per-line transform as the spec words it: a line containing `=`
forwards only the (trimmed) text after the first `=`; a line without `=`
is forwarded trimmed. -/
def specStripLine (line : List Char) : List Char :=
  if '=' ∈ line then trimChars ((line.dropWhile (fun c => c != '=')).drop 1)
  else trimChars line

/-! ## Concrete sample data used in witnesses and counterexamples -/

/-- The number of Accepted entries of a result list
(`submissionDisplayResults.filter(r => r.passed).length`, expressed over
the underlying evaluation results). -/
def countAccepted (rs : List SubmissionResult) : Nat :=
  (rs.filter (fun r => r.status == SubmissionStatus.Accepted)).length

/-- A minimal concrete `CodingProblem` with the given hidden cases. -/
def mkSampleProblem (tcs : List TestCase) : CodingProblem :=
  { id := "two-sum"
    title := "Two Sum"
    difficulty := CodingProblemDifficulty.Easy
    description := "find indices"
    constraints := []
    examples := []
    testCases := tcs
    starterCode := fun _ => ""
    solution := fun _ => "" }

/-- A problem whose hidden-test-case list is empty. -/
def emptyCaseProblem : CodingProblem := mkSampleProblem []

/-- A problem with one hidden case. -/
def oneCaseProblem : CodingProblem :=
  mkSampleProblem [{ input := "n = 1", output := "2" }]

/-- A problem with two hidden cases. -/
def twoCaseProblem : CodingProblem :=
  mkSampleProblem [{ input := "n = 1", output := "2" }, { input := "n = 2", output := "4" }]

/-- A problem with seven hidden cases. -/
def sevenCaseProblem : CodingProblem :=
  mkSampleProblem
    [{ input := "1", output := "1" }, { input := "2", output := "2" },
     { input := "3", output := "3" }, { input := "4", output := "4" },
     { input := "5", output := "5" }, { input := "6", output := "6" },
     { input := "7", output := "7" }]

/-- A parsed oracle result with status Accepted. -/
def rawAccepted : RawResult :=
  { status := SubmissionStatus.Accepted, stdout := "1", stderr := ""
    compile_output := "", time := "0.1", memory := 8 }

/-- A parsed oracle result with status Wrong Answer. -/
def rawWrong : RawResult :=
  { status := SubmissionStatus.WrongAnswer, stdout := "0", stderr := ""
    compile_output := "", time := "0.1", memory := 8 }

/-- A parsed oracle result with status Runtime Error. -/
def rawRuntime : RawResult :=
  { status := SubmissionStatus.RuntimeError, stdout := "", stderr := "IndexError at line 3"
    compile_output := "", time := "0.1", memory := 8 }

/-- An oracle response for `sevenCaseProblem` with five Accepted cases. -/
def sevenResp : OracleResponse :=
  OracleResponse.results
    [rawAccepted, rawAccepted, rawWrong, rawAccepted, rawAccepted, rawRuntime, rawAccepted]

/-- An evaluation result with status Accepted. -/
def acceptedResult : SubmissionResult := { status := SubmissionStatus.Accepted }

/-- An evaluation result with status Wrong Answer. -/
def wrongResult : SubmissionResult := { status := SubmissionStatus.WrongAnswer }

/-- An evaluation result with status Runtime Error. -/
def runtimeResult : SubmissionResult := { status := SubmissionStatus.RuntimeError }

/-! ## Lemmas: leftmost-match scanning agrees with per-shape first-match
combination -/

lemma bestOf_some_zero (v : Nat) (o : Option (Nat × Nat)) :
    bestOf (some (0, v)) o = some (0, v) := by
  cases o with
  | none => rfl
  | some r => simp [bestOf]

lemma bestOf_shift_zero (o : Option (Nat × Nat)) (v : Nat) :
    bestOf (o.map (fun q => (q.1 + 1, q.2))) (some (0, v)) = some (0, v) := by
  cases o with
  | none => rfl
  | some q => simp [bestOf]

lemma bestOf_shift (o p : Option (Nat × Nat)) :
    bestOf (o.map (fun q => (q.1 + 1, q.2))) (p.map (fun q => (q.1 + 1, q.2)))
      = (bestOf o p).map (fun q => (q.1 + 1, q.2)) := by
  cases o with
  | none => cases p <;> rfl
  | some q =>
    cases p with
    | none => rfl
    | some r =>
      rcases Nat.lt_or_ge r.1 q.1 with h | h
      · simp only [Option.map_some', bestOf]
        rw [if_pos h, if_pos (by omega : r.1 + 1 < q.1 + 1)]
        rfl
      · simp only [Option.map_some', bestOf]
        rw [if_neg (by omega : ¬ r.1 < q.1), if_neg (by omega : ¬ r.1 + 1 < q.1 + 1)]
        rfl

lemma scan3_eq_specScan (a b c : List Char → Option Nat)
    (ha : a [] = none) (hb : b [] = none) (hc : c [] = none) :
    ∀ cs : List Char,
      scan3 a b c cs
        = (bestOf (bestOf (shapeFirst a cs) (shapeFirst b cs)) (shapeFirst c cs)).map
            (fun q => q.2)
  | [] => by simp [scan3, shapeFirst, ha, hb, hc, bestOf]
  | ch :: rest => by
    have ih := scan3_eq_specScan a b c ha hb hc rest
    cases hA : a (ch :: rest) with
    | some v => simp [scan3, shapeFirst, hA, bestOf_some_zero]
    | none =>
      cases hB : b (ch :: rest) with
      | some v => simp [scan3, shapeFirst, hA, hB, bestOf_shift_zero, bestOf_some_zero]
      | none =>
        cases hC : c (ch :: rest) with
        | some v => simp [scan3, shapeFirst, hA, hB, hC, bestOf_shift, bestOf_shift_zero]
        | none =>
          have hcomp : ((fun q : Nat × Nat => q.2) ∘ fun q : Nat × Nat => (q.1 + 1, q.2))
              = fun q : Nat × Nat => q.2 := by
            funext q
            rfl
          simp [scan3, shapeFirst, hA, hB, hC, bestOf_shift, ih, Option.map_map, hcomp]

lemma findLineMatch_eq_specCI (cs : List Char) :
    findLineMatch cs = specLineScan tryAltB tryAltC cs :=
  scan3_eq_specScan tryAltA tryAltB tryAltC rfl rfl rfl cs

lemma parseError_eq_ci (s : String) : parseError s = specDiagnosticExtractCI s := by
  unfold parseError specDiagnosticExtractCI specExtractWith
  rw [show findLineMatch s.data = specLineScan tryAltB tryAltC s.data from
    findLineMatch_eq_specCI s.data]

/-! ## Lemmas: newline splitting and joining -/

lemma splitNl_ne_nil : ∀ cs : List Char, splitNl cs ≠ []
  | [] => by simp [splitNl]
  | c :: rest => by
    by_cases h : c = '\n'
    · simp [splitNl, h]
    · have hne := splitNl_ne_nil rest
      cases hr : splitNl rest with
      | nil => exact absurd hr hne
      | cons l ls => simp [splitNl, h, hr]

lemma mem_splitNl_no_newline : ∀ (cs : List Char) (l : List Char), l ∈ splitNl cs → '\n' ∉ l
  | [], l, hl => by
    simp [splitNl] at hl
    simp [hl]
  | c :: rest, l, hl => by
    by_cases h : c = '\n'
    · simp only [splitNl, if_pos h, List.mem_cons] at hl
      rcases hl with hl | hl
      · simp [hl]
      · exact mem_splitNl_no_newline rest l hl
    · have hne := splitNl_ne_nil rest
      cases hr : splitNl rest with
      | nil => exact absurd hr hne
      | cons l2 ls =>
        simp only [splitNl, if_neg h, hr, List.mem_cons] at hl
        rcases hl with hl | hl
        · have hl2 : '\n' ∉ l2 :=
            mem_splitNl_no_newline rest l2 (by rw [hr]; exact List.mem_cons_self l2 ls)
          simp [hl, h, hl2]
          intro hcontra
          exact absurd hcontra.symm h
        · exact mem_splitNl_no_newline rest l (by rw [hr]; exact List.mem_cons_of_mem l2 hl)

lemma splitNl_single : ∀ l : List Char, '\n' ∉ l → splitNl l = [l]
  | [], _ => rfl
  | c :: rest, h => by
    have hc : ¬ c = '\n' := fun hc => h (by simp [hc])
    have hrest : splitNl rest = [rest] :=
      splitNl_single rest (fun hm => h (List.mem_cons_of_mem c hm))
    simp [splitNl, hc, hrest]

lemma splitNl_append : ∀ a b : List Char, splitNl (a ++ '\n' :: b) = splitNl a ++ splitNl b
  | [], b => by simp [splitNl]
  | c :: a, b => by
    by_cases h : c = '\n'
    · simp [splitNl, h, splitNl_append a b]
    · have hne := splitNl_ne_nil a
      cases hr : splitNl a with
      | nil => exact absurd hr hne
      | cons l ls =>
        have hstep := splitNl_append a b
        rw [hr] at hstep
        simp [splitNl, h, hstep, hr]

lemma joinNl_append : ∀ xs ys : List (List Char), xs ≠ [] → ys ≠ [] →
    joinNl (xs ++ ys) = joinNl xs ++ '\n' :: joinNl ys
  | [], _, hx, _ => absurd rfl hx
  | [x], ys, _, hy => by
    cases ys with
    | nil => exact absurd rfl hy
    | cons y ys => simp [joinNl]
  | x1 :: x2 :: xs, ys, _, hy => by
    have ih := joinNl_append (x2 :: xs) ys (by simp) hy
    show x1 ++ '\n' :: joinNl ((x2 :: xs) ++ ys)
      = (x1 ++ '\n' :: joinNl (x2 :: xs)) ++ '\n' :: joinNl ys
    rw [ih]
    simp

lemma splitNl_joinNl : ∀ ls : List (List Char), ls ≠ [] → (∀ l ∈ ls, '\n' ∉ l) →
    splitNl (joinNl ls) = ls
  | [], hne, _ => absurd rfl hne
  | [l], _, h => by
    simp only [joinNl]
    exact splitNl_single l (h l (by simp))
  | l :: l2 :: ls, _, h => by
    have ih : splitNl (joinNl (l2 :: ls)) = l2 :: ls :=
      splitNl_joinNl (l2 :: ls) (by simp) (fun x hx => h x (List.mem_cons_of_mem l hx))
    simp only [joinNl]
    rw [splitNl_append, splitNl_single l (h l (by simp)), ih]
    rfl

/-! ## Lemmas: trimming and line stripping -/

lemma mem_dropWhile_sub {p : Char → Bool} : ∀ {cs : List Char} {x : Char},
    x ∈ cs.dropWhile p → x ∈ cs
  | [], _, h => h
  | c :: rest, x, h => by
    by_cases hp : p c
    · simp only [List.dropWhile, hp] at h
      exact List.mem_cons_of_mem c (mem_dropWhile_sub h)
    · simp only [List.dropWhile, hp] at h
      simpa using h

lemma mem_trimChars {cs : List Char} {x : Char} (h : x ∈ trimChars cs) : x ∈ cs := by
  unfold trimChars at h
  rw [List.mem_reverse] at h
  have h2 := mem_dropWhile_sub h
  rw [List.mem_reverse] at h2
  exact mem_dropWhile_sub h2

lemma stripLine_def (l : List Char) :
    stripLine l
      = if (l.takeWhile (fun c => c != '=')).length = l.length then trimChars l
        else trimChars (l.drop ((l.takeWhile (fun c => c != '=')).length + 1)) := rfl

lemma stripLine_no_newline {l : List Char} (h : '\n' ∉ l) : '\n' ∉ stripLine l := by
  rw [stripLine_def]
  split
  · exact fun hm => h (mem_trimChars hm)
  · exact fun hm => h (List.drop_subset _ l (mem_trimChars hm))

lemma takeWhile_len_eq_iff : ∀ l : List Char,
    ((l.takeWhile (fun c => c != '=')).length = l.length) ↔ '=' ∉ l
  | [] => by simp
  | c :: rest => by
    by_cases h : c = '='
    · subst h
      have htw : List.takeWhile (fun c => c != '=') ('=' :: rest) = [] := by
        simp [List.takeWhile]
      constructor
      · intro hlen
        rw [htw] at hlen
        simp at hlen
      · intro hni
        exact absurd (List.mem_cons_self _ _) hni
    · have hb : (c != '=') = true := by simp [h]
      simp only [List.takeWhile, hb, List.length_cons, Nat.add_right_cancel_iff,
        List.mem_cons]
      rw [takeWhile_len_eq_iff rest]
      constructor
      · rintro hni (hc | hm)
        · exact h hc.symm
        · exact hni hm
      · exact fun hni hm => hni (Or.inr hm)

lemma drop_after_eq : ∀ l : List Char,
    l.drop ((l.takeWhile (fun c => c != '=')).length + 1)
      = (l.dropWhile (fun c => c != '=')).drop 1
  | [] => by simp
  | c :: rest => by
    by_cases h : c = '='
    · have hb : (c != '=') = false := by simp [h]
      simp [List.takeWhile, List.dropWhile, hb]
    · have hb : (c != '=') = true := by simp [h]
      simp only [List.takeWhile, List.dropWhile, hb, List.length_cons]
      rw [show (List.takeWhile (fun c => c != '=') rest).length + 1 + 1
          = ((List.takeWhile (fun c => c != '=') rest).length + 1) + 1 from rfl]
      rw [List.drop_succ_cons]
      exact drop_after_eq rest

lemma stripLine_eq_spec (l : List Char) : stripLine l = specStripLine l := by
  rw [stripLine_def]
  unfold specStripLine
  by_cases h : '=' ∈ l
  · rw [if_pos h, if_neg (fun hlen => ((takeWhile_len_eq_iff l).mp hlen) h), drop_after_eq l]
  · rw [if_neg h, if_pos ((takeWhile_len_eq_iff l).mpr h)]

/-! ## Lemmas: extractInputValue structure -/

lemma extractList_splitNl (cs : List Char) :
    splitNl (extractList cs) = (splitNl cs).map stripLine := by
  unfold extractList
  refine splitNl_joinNl _ ?_ ?_
  · intro hnil
    exact splitNl_ne_nil cs (List.map_eq_nil_iff.mp hnil)
  · intro l hl
    rcases List.mem_map.mp hl with ⟨l0, hl0, rfl⟩
    exact stripLine_no_newline (mem_splitNl_no_newline cs l0 hl0)

lemma extractList_append (x y : List Char) :
    extractList (x ++ '\n' :: y) = extractList x ++ '\n' :: extractList y := by
  unfold extractList
  rw [splitNl_append, List.map_append]
  refine joinNl_append _ _ ?_ ?_ <;>
    exact fun hnil => splitNl_ne_nil _ (List.map_eq_nil_iff.mp hnil)

/-! ## Lemmas: first-failure aggregation -/

lemma findFirstFailure_none_iff : ∀ rs : List SubmissionResult,
    findFirstFailure rs = none ↔ ∀ r ∈ rs, r.status = SubmissionStatus.Accepted
  | [] => by simp [findFirstFailure]
  | r :: rest => by
    by_cases h : r.status = SubmissionStatus.Accepted
    · have heq : findFirstFailure (r :: rest)
          = (findFirstFailure rest).map (fun q => (q.1 + 1, q.2)) := by
        simp [findFirstFailure, h]
      rw [heq, Option.map_eq_none', findFirstFailure_none_iff rest]
      constructor
      · intro hall x hx
        rcases List.mem_cons.mp hx with rfl | hx
        · exact h
        · exact hall x hx
      · intro hall x hx
        exact hall x (List.mem_cons_of_mem r hx)
    · constructor
      · intro hnone
        rw [show findFirstFailure (r :: rest) = some (0, r) from by
          simp [findFirstFailure, h]] at hnone
        exact absurd hnone (by simp)
      · intro hall
        exact absurd (hall r (List.mem_cons_self r rest)) h

lemma findFirstFailure_first : ∀ (pre : List SubmissionResult) (r : SubmissionResult)
    (suf : List SubmissionResult),
    (∀ x ∈ pre, x.status = SubmissionStatus.Accepted) →
    r.status ≠ SubmissionStatus.Accepted →
    findFirstFailure (pre ++ r :: suf) = some (pre.length, r)
  | [], r, suf, _, hr => by simp [findFirstFailure, hr]
  | x :: pre, r, suf, hpre, hr => by
    have hx : x.status = SubmissionStatus.Accepted := hpre x (List.mem_cons_self x pre)
    have ih := findFirstFailure_first pre r suf
      (fun y hy => hpre y (List.mem_cons_of_mem x hy)) hr
    simp [findFirstFailure, hx, ih]

lemma overallStatusOf_all_accepted {rs : List SubmissionResult}
    (h : ∀ r ∈ rs, r.status = SubmissionStatus.Accepted) :
    overallStatusOf rs = SubmissionStatus.Accepted := by
  unfold overallStatusOf
  rw [(findFirstFailure_none_iff rs).mpr h]

lemma overallStatusOf_first {pre suf : List SubmissionResult} {r : SubmissionResult}
    (hpre : ∀ x ∈ pre, x.status = SubmissionStatus.Accepted)
    (hr : r.status ≠ SubmissionStatus.Accepted) :
    overallStatusOf (pre ++ r :: suf) = r.status := by
  unfold overallStatusOf
  rw [findFirstFailure_first pre r suf hpre hr]

/-! ## Lemmas: judge adapter lengths and statuses -/

lemma zip_length_of_le {α β : Type} (xs : List α) (ys : List β)
    (h : xs.length ≤ ys.length) : (xs.zip ys).length = xs.length := by
  rw [List.length_zip]
  omega

lemma evaluateCodeWithAI_length_le (lang : Language) (code : String)
    (jcs : List JudgeCase) (p : CodingProblem) (resp : OracleResponse) :
    (evaluateCodeWithAI lang code jcs p resp).length ≤ jcs.length := by
  cases resp with
  | failure => simp [evaluateCodeWithAI]
  | results rs =>
    by_cases h : rs.length ≤ jcs.length
    · simp only [evaluateCodeWithAI, if_pos h, List.length_map]
      rw [zip_length_of_le _ _ h]
      exact h
    · simp only [evaluateCodeWithAI, if_neg h, List.length_map]
      exact Nat.le_refl _

lemma submissionResultsOf_length_le (p : CodingProblem) (lang : Language)
    (code : String) (resp : OracleResponse) :
    (submissionResultsOf p lang code resp).length ≤ p.testCases.length := by
  have h := evaluateCodeWithAI_length_le lang code (submissionCasesOf p) p resp
  simpa [submissionResultsOf, submissionCasesOf] using h

lemma zip_map_adapt_status : ∀ (rs : List RawResult) (jcs : List JudgeCase),
    rs.length ≤ jcs.length →
    ((rs.zip jcs).map adaptResult).map (fun r => r.status) = rs.map (fun r => r.status)
  | [], _, _ => rfl
  | _ :: _, [], h => by simp at h
  | r :: rs, c :: cs, h => by
    have ih := zip_map_adapt_status rs cs (by simpa using h)
    simp [adaptResult, ih]

lemma zip_map_display_passed_count : ∀ (rs : List SubmissionResult) (tcs : List TestCase),
    rs.length ≤ tcs.length →
    (((rs.zip tcs).map mkDisplay).filter (fun d => d.passed)).length = countAccepted rs
  | [], _, _ => rfl
  | _ :: _, [], h => by simp at h
  | r :: rs, t :: ts, h => by
    have ih := zip_map_display_passed_count rs ts (by simpa using h)
    unfold countAccepted at ih ⊢
    simp only [List.zip_cons_cons, List.map_cons, List.filter_cons]
    have hpass : (mkDisplay (r, t)).passed = (r.status == SubmissionStatus.Accepted) := rfl
    rw [hpass]
    cases hb : (r.status == SubmissionStatus.Accepted)
    · simpa using ih
    · simpa using ih

/-! ## Lemmas: submitCore observables -/

lemma submitCore_overallStatus (p : CodingProblem) (lang : Language) (code : String)
    (resp : OracleResponse) :
    (submitCore p lang code resp).overallStatus
      = overallStatusOf (submissionResultsOf p lang code resp) := by
  unfold submitCore overallStatusOf
  cases h : findFirstFailure (submissionResultsOf p lang code resp) <;> simp [h]

lemma submitCore_attempts_length (p : CodingProblem) (lang : Language) (code : String)
    (resp : OracleResponse) :
    (submitCore p lang code resp).recordedAttempts.length = 1 := by
  unfold submitCore
  cases h : findFirstFailure (submissionResultsOf p lang code resp) <;> simp [h]

lemma submitCore_attempt_status (p : CodingProblem) (lang : Language) (code : String)
    (resp : OracleResponse) :
    (submitCore p lang code resp).recordedAttempts.map (fun a => a.status)
      = [if (findFirstFailure (submissionResultsOf p lang code resp)).isNone
          then AttemptStatus.Passed else AttemptStatus.Failed] := by
  unfold submitCore
  cases h : findFirstFailure (submissionResultsOf p lang code resp) <;> simp [h]

lemma submitCore_attempt_score (p : CodingProblem) (lang : Language) (code : String)
    (resp : OracleResponse) :
    (submitCore p lang code resp).recordedAttempts.map (fun a => a.score)
      = [computeScore (countAccepted (submissionResultsOf p lang code resp))
          (submissionResultsOf p lang code resp).length] := by
  have hle := submissionResultsOf_length_le p lang code resp
  unfold submitCore
  cases h : findFirstFailure (submissionResultsOf p lang code resp) <;>
    simp [h, zip_map_display_passed_count _ _ hle, List.length_map, zip_length_of_le _ _ hle]

lemma submissionResultsOf_empty (p : CodingProblem) (lang : Language) (code : String)
    (resp : OracleResponse) (h : p.testCases = []) :
    submissionResultsOf p lang code resp = [] := by
  cases resp with
  | failure => simp [submissionResultsOf, evaluateCodeWithAI, submissionCasesOf, h]
  | results rs =>
    simp only [submissionResultsOf, evaluateCodeWithAI, submissionCasesOf, h, List.map_nil]
    split <;> simp

/-! ## Claim theorems -/

/-- Claim C1: for every Submit whose judge response contains at least one
non-Accepted result, the overall submission status equals the status of
the first (lowest-index) non-Accepted result; if every result is Accepted
the overall status is Accepted; and the status `handleSubmitCode` reports
is exactly this aggregate of the evaluation results. -/
theorem overallStatus_first_failure_wins :
    (∀ (pre suf : List SubmissionResult) (r : SubmissionResult),
      (∀ x ∈ pre, x.status = SubmissionStatus.Accepted) →
      r.status ≠ SubmissionStatus.Accepted →
      overallStatusOf (pre ++ r :: suf) = r.status)
    ∧ (∀ rs : List SubmissionResult,
        (∀ x ∈ rs, x.status = SubmissionStatus.Accepted) →
        overallStatusOf rs = SubmissionStatus.Accepted)
    ∧ (∀ (p : CodingProblem) (lang : Language) (code : String) (resp : OracleResponse),
        (submitCore p lang code resp).overallStatus
          = overallStatusOf (submissionResultsOf p lang code resp)) :=
  ⟨fun _ _ _ hpre hr => overallStatusOf_first hpre hr,
   fun _ h => overallStatusOf_all_accepted h,
   fun p lang code resp => submitCore_overallStatus p lang code resp⟩

/-- Witness for C1 at the response `[Accepted, WrongAnswer, RuntimeError]`:
the overall status is WrongAnswer (the first non-Accepted, not the most
severe); an all-Accepted list aggregates to Accepted. -/
theorem overallStatus_first_failure_wins_witness :
    overallStatusOf [acceptedResult, wrongResult, runtimeResult]
        = SubmissionStatus.WrongAnswer
      ∧ overallStatusOf [acceptedResult, acceptedResult] = SubmissionStatus.Accepted :=
  ⟨overallStatus_first_failure_wins.1 [acceptedResult] [runtimeResult] wrongResult
      (by decide) (by decide),
   overallStatus_first_failure_wins.2.1 [acceptedResult, acceptedResult] (by decide)⟩

/-- Claim C2: every completed Submit records exactly one Attempt
(`submitCore` always emits exactly one `resultData` record, and one
`saveCodingResult` call appends exactly one document), and the recorded
status is Passed iff every evaluation result for the hidden cases is
Accepted. -/
theorem submit_records_exactly_one_attempt :
    (∀ (p : CodingProblem) (lang : Language) (code : String) (resp : OracleResponse),
      (submitCore p lang code resp).recordedAttempts.length = 1)
    ∧ (∀ (p : CodingProblem) (lang : Language) (code : String) (resp : OracleResponse),
        (submitCore p lang code resp).recordedAttempts.map (fun a => a.status)
            = [AttemptStatus.Passed]
          ↔ ∀ r ∈ submissionResultsOf p lang code resp,
              r.status = SubmissionStatus.Accepted)
    ∧ (∀ (store : List StoredCodingResult) (now : Nat) (tr : TestResultRec),
        (saveCodingResult store now tr).length = store.length + 1) := by
  refine ⟨fun p lang code resp => submitCore_attempts_length p lang code resp, ?_, ?_⟩
  · intro p lang code resp
    rw [submitCore_attempt_status]
    cases h : findFirstFailure (submissionResultsOf p lang code resp) with
    | none => simpa [h] using (findFirstFailure_none_iff _).mp h
    | some q =>
      have hnall : ¬ ∀ r ∈ submissionResultsOf p lang code resp,
          r.status = SubmissionStatus.Accepted := by
        intro hall
        rw [(findFirstFailure_none_iff _).mpr hall] at h
        exact Option.noConfusion h
      simp [h, hnall]
  · intro store now tr
    simp [saveCodingResult]

/-- Witness for C2 at a concrete one-case Submit with an Accepted
response, plus one concrete recorder call. -/
theorem submit_records_exactly_one_attempt_witness :
    (submitCore oneCaseProblem Language.javascript "code"
        (OracleResponse.results [rawAccepted])).recordedAttempts.length = 1
    ∧ ((submitCore oneCaseProblem Language.javascript "code"
          (OracleResponse.results [rawAccepted])).recordedAttempts.map (fun a => a.status)
            = [AttemptStatus.Passed]
        ↔ ∀ r ∈ submissionResultsOf oneCaseProblem Language.javascript "code"
            (OracleResponse.results [rawAccepted]),
            r.status = SubmissionStatus.Accepted)
    ∧ (saveCodingResult [] 7
        { testId := "two-sum", title := "Two Sum"
          difficulty := CodingProblemDifficulty.Easy, language := Language.javascript
          codeSubmitted := "code", status := AttemptStatus.Passed
          score := JSNum.nan }).length = ([] : List StoredCodingResult).length + 1 :=
  ⟨submit_records_exactly_one_attempt.1 oneCaseProblem Language.javascript "code"
      (OracleResponse.results [rawAccepted]),
   submit_records_exactly_one_attempt.2.1 oneCaseProblem Language.javascript "code"
      (OracleResponse.results [rawAccepted]),
   submit_records_exactly_one_attempt.2.2 [] 7 _⟩

/-- Counterexample to claim C3 as stated: submitting a problem with zero
hidden test cases does complete with overall status Accepted, but the
recorded score is NaN (the JavaScript `0/0`), not 100.0. -/
theorem vacuous_submit_score_cex :
    (submitCore emptyCaseProblem Language.javascript "code"
        (OracleResponse.results [])).overallStatus = SubmissionStatus.Accepted
    ∧ (submitCore emptyCaseProblem Language.javascript "code"
        (OracleResponse.results [])).recordedAttempts.map (fun a => a.score) = [JSNum.nan]
    ∧ JSNum.nan ≠ JSNum.val 100 := by
  refine ⟨by decide, by decide, by decide⟩

/-- Amended claim C3: Submit with zero hidden test cases still completes
without error, with overall status Accepted and the attempt recorded as
Passed, but the recorded score is NaN (0/0), not 100.0. -/
theorem vacuous_submit_accepted_score_nan :
    ∀ (p : CodingProblem) (lang : Language) (code : String) (resp : OracleResponse),
      p.testCases = [] →
      (submitCore p lang code resp).overallStatus = SubmissionStatus.Accepted
      ∧ (submitCore p lang code resp).recordedAttempts.map (fun a => a.score) = [JSNum.nan]
      ∧ (submitCore p lang code resp).recordedAttempts.map (fun a => a.status)
          = [AttemptStatus.Passed] := by
  intro p lang code resp h
  have hres := submissionResultsOf_empty p lang code resp h
  refine ⟨?_, ?_, ?_⟩
  · rw [submitCore_overallStatus, hres]
    rfl
  · rw [submitCore_attempt_score, hres]
    rfl
  · rw [submitCore_attempt_status, hres]
    rfl

/-- Witness for the amended C3 at a concrete empty-case problem with a
failing oracle. -/
theorem vacuous_submit_accepted_score_nan_witness :
    (submitCore emptyCaseProblem Language.python "x"
        OracleResponse.failure).overallStatus = SubmissionStatus.Accepted
    ∧ (submitCore emptyCaseProblem Language.python "x"
        OracleResponse.failure).recordedAttempts.map (fun a => a.score) = [JSNum.nan]
    ∧ (submitCore emptyCaseProblem Language.python "x"
        OracleResponse.failure).recordedAttempts.map (fun a => a.status)
        = [AttemptStatus.Passed] :=
  vacuous_submit_accepted_score_nan emptyCaseProblem Language.python "x"
    OracleResponse.failure rfl

/-- Counterexample to claim C4 as stated: a judge response with one
Accepted result for a two-hidden-case Submit is processed as-is, and the
recorded score is 100, not `round(1/2*100, 2) = 50` as the per-hidden-case
formula requires. -/
theorem submit_score_short_response_cex :
    (submissionResultsOf twoCaseProblem Language.javascript "code"
        (OracleResponse.results [rawAccepted])).length = 1
    ∧ twoCaseProblem.testCases.length = 2
    ∧ (submitCore twoCaseProblem Language.javascript "code"
        (OracleResponse.results [rawAccepted])).recordedAttempts.map (fun a => a.score)
        = [JSNum.val 100]
    ∧ JSNum.val 100 ≠ JSNum.val (roundTo2 ((1 : ℚ) / 2 * 100)) := by
  refine ⟨by decide, by decide, ?_, ?_⟩
  · rw [submitCore_attempt_score]
    have h1 : countAccepted (submissionResultsOf twoCaseProblem Language.javascript "code"
        (OracleResponse.results [rawAccepted])) = 1 := by decide
    have h2 : (submissionResultsOf twoCaseProblem Language.javascript "code"
        (OracleResponse.results [rawAccepted])).length = 1 := by decide
    rw [h1, h2]
    simp only [computeScore, roundTo2]
    norm_num [Int.floor_eq_iff]
  · simp only [ne_eq, JSNum.val.injEq, roundTo2]
    norm_num [Int.floor_eq_iff]

/-- Amended claim C4: the recorded score is (Accepted results / number of
returned results) × 100 rounded to 2 decimals — the denominator is the
result-list length, which equals the hidden-case total exactly when the
judge response is same-length; 5 Accepted of 7 yields exactly 71.43. -/
theorem submit_score_formula :
    (∀ (p : CodingProblem) (lang : Language) (code : String) (resp : OracleResponse),
      submissionResultsOf p lang code resp ≠ [] →
      (submitCore p lang code resp).recordedAttempts.map (fun a => a.score)
        = [JSNum.val (roundTo2
            ((countAccepted (submissionResultsOf p lang code resp) : ℚ)
              / ((submissionResultsOf p lang code resp).length : ℚ) * 100))])
    ∧ (∀ (p : CodingProblem) (lang : Language) (code : String) (rs : List RawResult),
        rs.length = p.testCases.length →
        (submissionResultsOf p lang code (OracleResponse.results rs)).length
          = p.testCases.length)
    ∧ (submitCore sevenCaseProblem Language.javascript "code"
        sevenResp).recordedAttempts.map (fun a => a.score)
        = [JSNum.val (7143 / 100)] := by
  refine ⟨?_, ?_, ?_⟩
  · intro p lang code resp hne
    rw [submitCore_attempt_score]
    have hlen : (submissionResultsOf p lang code resp).length ≠ 0 := by
      simpa using List.length_pos.mpr hne |>.ne'
    simp [computeScore, hlen]
  · intro p lang code rs hlen
    have hle : rs.length ≤ (submissionCasesOf p).length := by
      simp [submissionCasesOf, hlen]
    simp only [submissionResultsOf, evaluateCodeWithAI, if_pos hle, List.length_map]
    rw [zip_length_of_le _ _ hle, hlen]
  · rw [submitCore_attempt_score]
    have h1 : countAccepted (submissionResultsOf sevenCaseProblem Language.javascript
        "code" sevenResp) = 5 := by decide
    have h2 : (submissionResultsOf sevenCaseProblem Language.javascript
        "code" sevenResp).length = 7 := by decide
    rw [h1, h2]
    simp only [computeScore, roundTo2]
    norm_num [Int.floor_eq_iff]

/-- Witness for the amended C4 at the seven-case problem with five
Accepted results, and a conforming (same-length) response. -/
theorem submit_score_formula_witness :
    submissionResultsOf sevenCaseProblem Language.javascript "code" sevenResp ≠ []
    ∧ (submitCore sevenCaseProblem Language.javascript "code"
        sevenResp).recordedAttempts.map (fun a => a.score)
        = [JSNum.val (roundTo2
            ((countAccepted (submissionResultsOf sevenCaseProblem Language.javascript
                "code" sevenResp) : ℚ)
              / ((submissionResultsOf sevenCaseProblem Language.javascript
                  "code" sevenResp).length : ℚ) * 100))]
    ∧ (submissionResultsOf twoCaseProblem Language.c "s"
        (OracleResponse.results [rawAccepted, rawWrong])).length
        = twoCaseProblem.testCases.length :=
  ⟨by decide,
   submit_score_formula.1 sevenCaseProblem Language.javascript "code" sevenResp (by decide),
   submit_score_formula.2.1 twoCaseProblem Language.c "s" [rawAccepted, rawWrong] (by decide)⟩

/-- Counterexample to claim C5 as stated: when the oracle call fails on a
problem with zero hidden cases, the synthetic result list is empty (one
result per requested case) and the recorded attempt has status Passed, not
Failed. -/
theorem oracle_failure_vacuous_cex :
    evaluateCodeWithAI Language.javascript "code" [] emptyCaseProblem
        OracleResponse.failure = []
    ∧ (submitCore emptyCaseProblem Language.javascript "code"
        OracleResponse.failure).recordedAttempts.map (fun a => a.status)
        = [AttemptStatus.Passed]
    ∧ AttemptStatus.Passed ≠ AttemptStatus.Failed := by
  refine ⟨by decide, by decide, by decide⟩

/-- Amended claim C5: on oracle failure the Judge Client returns exactly
one synthetic CompilationError result per requested case (same length as
the request, compile output set to the explanatory message), and a Submit
whose oracle call fails still records exactly one Attempt, whose status is
Failed whenever at least one hidden case exists (with zero hidden cases
the vacuous pass applies and the attempt is recorded as Passed). -/
theorem oracle_failure_synthetic_results :
    (∀ (lang : Language) (code : String) (jcs : List JudgeCase) (p : CodingProblem),
      evaluateCodeWithAI lang code jcs p OracleResponse.failure
        = jcs.map (fun _ => syntheticResult)
      ∧ (evaluateCodeWithAI lang code jcs p OracleResponse.failure).length = jcs.length
      ∧ ∀ r ∈ evaluateCodeWithAI lang code jcs p OracleResponse.failure,
          r.status = SubmissionStatus.CompilationError
          ∧ r.compile_output = "Evaluation failed due to AI error.")
    ∧ (∀ (p : CodingProblem) (lang : Language) (code : String),
        p.testCases ≠ [] →
        (submitCore p lang code OracleResponse.failure).recordedAttempts.length = 1
        ∧ (submitCore p lang code
            OracleResponse.failure).recordedAttempts.map (fun a => a.status)
            = [AttemptStatus.Failed]) := by
  constructor
  · intro lang code jcs p
    refine ⟨rfl, by simp [evaluateCodeWithAI], ?_⟩
    intro r hr
    simp only [evaluateCodeWithAI, List.mem_map] at hr
    rcases hr with ⟨x, _, rfl⟩
    exact ⟨rfl, rfl⟩
  · intro p lang code hne
    refine ⟨submitCore_attempts_length p lang code OracleResponse.failure, ?_⟩
    rw [submitCore_attempt_status]
    have hres : submissionResultsOf p lang code OracleResponse.failure
        = p.testCases.map (fun _ => syntheticResult) := by
      show (submissionCasesOf p).map (fun _ => syntheticResult)
        = p.testCases.map (fun _ => syntheticResult)
      rw [submissionCasesOf, List.map_map]
      rfl
    cases htc : p.testCases with
    | nil => exact absurd htc hne
    | cons t ts =>
      rw [hres, htc]
      simp [findFirstFailure, syntheticResult]

/-- Witness for the amended C5 at a concrete one-case problem whose oracle
call fails. -/
theorem oracle_failure_synthetic_results_witness :
    oneCaseProblem.testCases ≠ []
    ∧ (submitCore oneCaseProblem Language.java "c"
        OracleResponse.failure).recordedAttempts.length = 1
    ∧ (submitCore oneCaseProblem Language.java "c"
        OracleResponse.failure).recordedAttempts.map (fun a => a.status)
        = [AttemptStatus.Failed] :=
  ⟨by decide,
   (oracle_failure_synthetic_results.2 oneCaseProblem Language.java "c" (by decide)).1,
   (oracle_failure_synthetic_results.2 oneCaseProblem Language.java "c" (by decide)).2⟩

/-- Counterexample to claim C6 as stated: a judge response SHORTER than
the request is neither rejected nor replaced by synthetic failures — the
1-result response to a 2-case request is passed through unchanged and the
submission is processed as a full pass. -/
theorem judge_short_response_cex :
    (evaluateCodeWithAI Language.javascript "code" (submissionCasesOf twoCaseProblem)
        twoCaseProblem (OracleResponse.results [rawAccepted])).length = 1
    ∧ (submissionCasesOf twoCaseProblem).length = 2
    ∧ (evaluateCodeWithAI Language.javascript "code" (submissionCasesOf twoCaseProblem)
        twoCaseProblem (OracleResponse.results [rawAccepted])).map (fun r => r.status)
        = [SubmissionStatus.Accepted]
    ∧ (submitCore twoCaseProblem Language.javascript "code"
        (OracleResponse.results [rawAccepted])).overallStatus = SubmissionStatus.Accepted
    ∧ (submitCore twoCaseProblem Language.javascript "code"
        (OracleResponse.results [rawAccepted])).recordedAttempts.map (fun a => a.status)
        = [AttemptStatus.Passed] := by
  refine ⟨by decide, by decide, by decide, by decide, by decide⟩

/-- Amended claim C6: for a same-length judge response the adapter
produces exactly N results with statuses in request order; a response
LONGER than the request is converted to one synthetic CompilationError per
requested case (the oracle-failure path); a response SHORTER than the
request is passed through as-is (the length invariant is enforced only
against longer responses). -/
theorem judge_response_length_handling :
    ∀ (lang : Language) (code : String) (jcs : List JudgeCase) (p : CodingProblem)
      (rs : List RawResult),
      (rs.length = jcs.length →
        (evaluateCodeWithAI lang code jcs p (OracleResponse.results rs)).length = jcs.length
        ∧ (evaluateCodeWithAI lang code jcs p (OracleResponse.results rs)).map
            (fun r => r.status) = rs.map (fun r => r.status))
      ∧ (rs.length > jcs.length →
          evaluateCodeWithAI lang code jcs p (OracleResponse.results rs)
            = jcs.map (fun _ => syntheticResult))
      ∧ (rs.length ≤ jcs.length →
          (evaluateCodeWithAI lang code jcs p (OracleResponse.results rs)).length = rs.length
          ∧ (evaluateCodeWithAI lang code jcs p (OracleResponse.results rs)).map
              (fun r => r.status) = rs.map (fun r => r.status)) := by
  intro lang code jcs p rs
  refine ⟨?_, ?_, ?_⟩
  · intro heq
    have hle : rs.length ≤ jcs.length := le_of_eq heq
    constructor
    · simp only [evaluateCodeWithAI, if_pos hle, List.length_map]
      rw [zip_length_of_le _ _ hle, heq]
    · simp only [evaluateCodeWithAI, if_pos hle]
      exact zip_map_adapt_status rs jcs hle
  · intro hgt
    have hnle : ¬ rs.length ≤ jcs.length := by omega
    simp [evaluateCodeWithAI, hnle]
  · intro hle
    constructor
    · simp only [evaluateCodeWithAI, if_pos hle, List.length_map]
      exact zip_length_of_le _ _ hle
    · simp only [evaluateCodeWithAI, if_pos hle]
      exact zip_map_adapt_status rs jcs hle

/-- Witness for the amended C6 at a concrete conforming two-result
response and a concrete over-long response. -/
theorem judge_response_length_handling_witness :
    ((evaluateCodeWithAI Language.c "s" (submissionCasesOf twoCaseProblem) twoCaseProblem
        (OracleResponse.results [rawAccepted, rawWrong])).length
        = (submissionCasesOf twoCaseProblem).length
      ∧ (evaluateCodeWithAI Language.c "s" (submissionCasesOf twoCaseProblem)
          twoCaseProblem (OracleResponse.results [rawAccepted, rawWrong])).map
          (fun r => r.status) = [rawAccepted, rawWrong].map (fun r => r.status))
    ∧ evaluateCodeWithAI Language.c "s" (submissionCasesOf oneCaseProblem) oneCaseProblem
        (OracleResponse.results [rawAccepted, rawWrong])
        = (submissionCasesOf oneCaseProblem).map (fun _ => syntheticResult) :=
  ⟨(judge_response_length_handling Language.c "s" (submissionCasesOf twoCaseProblem)
      twoCaseProblem [rawAccepted, rawWrong]).1 (by decide),
   (judge_response_length_handling Language.c "s" (submissionCasesOf oneCaseProblem)
      oneCaseProblem [rawAccepted, rawWrong]).2.1 (by decide)⟩

/-- Counterexample to claim C7 as stated: on `"LINE 42"` the source's
case-insensitive regex matches the `line `-shape and reports line 42,
while the spec's reference algorithm with the literal shapes `line ` /
`[Line ]` finds no shape and defaults to line 1. -/
theorem parseError_case_sensitivity_cex :
    parseError "LINE 42" = some { lineNumber := 42, message := "LINE 42" }
    ∧ specDiagnosticExtract "LINE 42" = some { lineNumber := 1, message := "LINE 42" }
    ∧ parseError "LINE 42" ≠ specDiagnosticExtract "LINE 42" := by
  refine ⟨by decide, by decide, by decide⟩

/-- Amended claim C7: the Diagnostic Extractor behaves exactly as the
reference algorithm — empty input gives no diagnostic; otherwise the first
match of shape (a) `path:digits`, (b) `line ` + digits, (c)
`[Line digits]`, in that priority order with first match winning, gives
the line number, defaulting to 1, with the trimmed original text as
message — provided shapes (b) and (c) are matched case-insensitively (the
regex carries the `i` flag).  The claim's concrete instances hold. -/
theorem parseError_matches_reference :
    (∀ s : String, parseError s = specDiagnosticExtractCI s)
    ∧ parseError "script.py:12: SyntaxError: invalid syntax"
        = some { lineNumber := 12, message := "script.py:12: SyntaxError: invalid syntax" }
    ∧ parseError "" = none
    ∧ parseError "Some generic failure with no location"
        = some { lineNumber := 1, message := "Some generic failure with no location" } := by
  refine ⟨parseError_eq_ci, by decide, by decide, by decide⟩

/-- Claim C8: invoking Submit or Run while an evaluation is already
pending (`isExecuting` true) is rejected by the guard as a no-op: no
outcome is produced, no oracle call is started, and no Attempt is
recorded. -/
theorem reentrant_calls_rejected :
    ∀ (hasUser : Bool) (prob : Option CodingProblem) (lang : Language) (code : String)
      (resp : OracleResponse),
      handleSubmitCode hasUser prob true lang code resp = none
      ∧ handleRunCode prob true lang code resp = none
      ∧ attemptsOf (handleSubmitCode hasUser prob true lang code resp) = [] := by
  intro hasUser prob lang code resp
  refine ⟨by simp [handleSubmitCode], by simp [handleRunCode], ?_⟩
  simp [handleSubmitCode, attemptsOf]

/-- Claim C9: the input-stripping function forwards, line by line, only
the value after the first `=` (trimmed) and forwards `=`-free lines
verbatim (trimmed): the lines of its output are exactly the spec's
per-line transform of the lines of its input, and the claim's two concrete
instances hold. -/
theorem extractInputValue_per_line :
    (∀ s : String, splitNl (extractInputValue s).data = (splitNl s.data).map specStripLine)
    ∧ extractInputValue "nums = [1,2,3]\ntarget = 5" = "[1,2,3]\n5"
    ∧ extractInputValue "[1,2,3]" = "[1,2,3]" := by
  refine ⟨?_, by decide, by decide⟩
  intro s
  have h1 : (extractInputValue s).data = extractList s.data := rfl
  have h2 : stripLine = specStripLine := funext stripLine_eq_spec
  rw [h1, extractList_splitNl, h2]

/-- Claim C10: input stripping preserves line structure — the output has
exactly as many newline-separated lines as the input, and stripping
distributes over newline concatenation. -/
theorem extractInputValue_line_structure :
    (∀ s : String, (splitNl (extractInputValue s).data).length = (splitNl s.data).length)
    ∧ (∀ a b : String,
        extractInputValue (a ++ "\n" ++ b)
          = extractInputValue a ++ "\n" ++ extractInputValue b) := by
  constructor
  · intro s
    have h1 : (extractInputValue s).data = extractList s.data := rfl
    rw [h1, extractList_splitNl, List.length_map]
  · intro a b
    have hdata : (a ++ "\n" ++ b).data = a.data ++ '\n' :: b.data := by
      simp [String.data_append]
    show String.mk (extractList (a ++ "\n" ++ b).data) = _
    rw [hdata, extractList_append]
    show String.mk (extractList a.data ++ '\n' :: extractList b.data)
      = String.mk ((extractList a.data ++ ['\n']) ++ extractList b.data)
    rw [List.append_assoc]
    rfl

end LearnMate
